import Mathlib

/-!
Shallow embedding of `src/hf_ingest.py` (Tweede-Kamer-Ingest).

The embedding models `fetch_all_docs` as a function of
 - the stored skiptoken read at run start (`get_skiptoken`, an integer, -1 when absent),
 - the sequence of feed-page fetch outcomes the run observes (one `PageResult`
   per iteration of the `while True` loop), and
 - an environment mapping enclosure URLs to their fetch outcomes
   (`requests.get(enclosure_url)` together with the external `pdftotext`
   conversion of the returned bytes).

A run ends in `RunOutcome.finished c docs`, meaning the loop exited via `break`
(network error or end of feed), `save_skiptoken(category, c)` was executed
(the guard `current_skiptoken is not None` is always true because
`get_skiptoken` returns an `int`), and `docs` is the returned batch; or in
`RunOutcome.raised`, meaning an exception escaped `fetch_all_docs` uncaught
(`etree.fromstring` on a malformed page body, line 95, which is outside the
`try` block of lines 82-93, or the `TypeError` from `"skiptoken=" in href`
when a rel="next" link has no href, lines 108-109 and 203-204).

An exhausted page list is treated as the next fetch raising a
`requests.exceptions.RequestException` (the `break` at line 93): every
terminating run of the Python loop performs finitely many page fetches, and
its trace is represented by that finite list of outcomes.
-/

/-- Namespace string for tk attributes, from the source constant TK_NAMESPACE. -/
def TK_NAMESPACE : String := "http://www.tweedekamer.nl/xsd/tkData/v1-0"

/-- Clark-notation brace wrapper used by lxml for namespaced tags/attributes:
the Python code builds "{" + TK_NAMESPACE + "}". -/
def tkBrace : String := "\x7b" ++ TK_NAMESPACE ++ "\x7d"

/-- Fully qualified name of the deletion attribute, "{TK_NAMESPACE}verwijderd". -/
def tkDelAttr : String := tkBrace ++ "verwijderd"

/-- Parsed XML element (what lxml exposes: tag, attribute map, child elements). -/
inductive Xml where
  | elem (tag : String) (attrs : List (String × String)) (children : List Xml)

/-- Tag of an element (lxml `element.tag`, Clark notation for namespaced tags). -/
def Xml.tag : Xml → String
  | .elem t _ _ => t

/-- Attribute list of an element. -/
def Xml.attrs : Xml → List (String × String)
  | .elem _ a _ => a

/-- Child elements of an element. -/
def Xml.children : Xml → List Xml
  | .elem _ _ c => c

/-- Attribute lookup, lxml `element.get(name)` (attribute names are unique). -/
def Xml.get (x : Xml) (name : String) : Option String :=
  (x.attrs.find? (fun p => p.1 == name)).map (fun p => p.2)

/-- Outcome of locating and parsing an entry's `atom:content` block
(lines 121-136 of the source). -/
inductive NestedContent where
  | absent      -- entry.find("atom:content") is None
  | noText      -- content element present but content_element.text is None
  | malformed   -- etree.fromstring(text) raises XMLSyntaxError (caught; entry skipped)
  | ok (root : Xml)  -- nested XML parsed; root element of the nested document

/-- An `atom:link` element of an entry or of the feed root: `rel` and `href`
attributes, each possibly absent. -/
structure Link where
  rel : Option String
  href : Option String
deriving DecidableEq

/-- A feed entry: its `atom:link` children in document order and its
`atom:content` parse outcome. -/
structure Entry where
  links : List Link
  content : NestedContent

/-- An enclosure HTTP response that passed `raise_for_status`:
`contentType` is the Content-Type header when present, `text` is `dresp.text`
(the leniently decoded body), and `pdfText` is `convert_pdf_to_text(dresp.content)`
— the external `pdftotext` output on the raw bytes, which is `""` when the
tool fails (lines 57-64). -/
structure EncResponse where
  contentType : Option String
  text : String
  pdfText : String

/-- Outcome of `requests.get(enclosure_url)`: network/HTTP failure
(`requests.exceptions.RequestException`, caught at line 189) or a response. -/
inductive EncResult where
  | httpError
  | ok (resp : EncResponse)

/-- One output record appended to `all_docs` at line 187. -/
structure Document where
  URL : String
  content : String
  Source : String
deriving DecidableEq

/-- A successfully fetched and parsed feed page: its `atom:entry` children and
the `atom:link` children of the feed root. -/
structure FeedPage where
  entries : List Entry
  feedLinks : List Link

/-- Outcome of one feed-page fetch in the `while True` loop:
`fetchError` is a `requests.exceptions.RequestException` (caught, line 91-93,
`break`); `parseError` means `resp` arrived but `etree.fromstring(resp.content)`
at line 95 raises (uncaught); `page` is a parsed page. -/
inductive PageResult where
  | fetchError
  | parseError
  | page (p : FeedPage)

/-- Result of a run of `fetch_all_docs`: either an uncaught exception escaped,
or the loop broke, `save_skiptoken(category, c)` ran, and `docs` was returned. -/
inductive RunOutcome where
  | raised
  | finished (savedCursor : Int) (docs : List Document)
deriving DecidableEq

/-- Test whether the first list is an initial segment of the second
(character-level `startswith`). -/
def isPre : List Char → List Char → Bool
  | [], _ => true
  | _ :: _, [] => false
  | a :: as, b :: bs => a == b && isPre as bs

/-- Python `s.startswith(p)` on strings. -/
def pyStartsWith (s p : String) : Bool :=
  isPre p.data s.data

/-- Fuel-driven worker for `pySplit`: scan left to right, splitting at every
non-overlapping occurrence of the (nonempty) separator. The fuel is an upper
bound on the remaining input length, so the fuel-0 branch is never reached
when started with `length + 1` fuel. -/
def splitChars (sep : List Char) : Nat → List Char → List Char → List (List Char)
  | 0, l, acc => [acc.reverse ++ l]
  | _ + 1, [], acc => [acc.reverse]
  | fuel + 1, c :: rest, acc =>
    if isPre sep (c :: rest) then
      acc.reverse :: splitChars sep fuel (List.drop sep.length (c :: rest)) []
    else
      splitChars sep fuel rest (c :: acc)

/-- Python `s.split(sep)` for a nonempty separator. -/
def pySplit (s sep : String) : List String :=
  (splitChars sep.data (s.data.length + 1) s.data []).map List.asString

/-- Python `s.strip()` (leading and trailing whitespace removed; Python also
strips some further Unicode whitespace, not exercised here). -/
def pyStrip (s : String) : String :=
  (((s.data.dropWhile Char.isWhitespace).reverse.dropWhile Char.isWhitespace).reverse).asString

/-- Python `s.lower()` (ASCII case folding, as in the headers handled here). -/
def pyLower (s : String) : String :=
  (s.data.map Char.toLower).asString

/-- Decimal digit-string reading used by `pyInt`. -/
def pyDigits? (s : String) : Option Nat :=
  if s.data ≠ [] ∧ s.data.all Char.isDigit then
    some (s.data.foldl (fun n c => n * 10 + (c.toNat - 48)) 0)
  else none

/-- Python `int(s)` on a string, as used at lines 111 and 206: surrounding
whitespace stripped, optional sign, decimal digits; `none` models `ValueError`.
(Python additionally accepts underscore digit separators and non-ASCII
whitespace/digits; those corners are not exercised here.) -/
def pyInt (s : String) : Option Int :=
  let t := pyStrip s
  if pyStartsWith t "-" then (pyDigits? (t.data.drop 1).asString).map (fun n => -(n : Int))
  else if pyStartsWith t "+" then (pyDigits? (t.data.drop 1).asString).map (fun n => (n : Int))
  else (pyDigits? t).map (fun n => (n : Int))

/-- Token extraction from a next-link href, lines 109-111 / 204-206:
`if "skiptoken=" in href: int(href.split("skiptoken=")[1].split("&")[0])`,
with `ValueError` swallowed (`pass`). `none` covers both "substring absent"
and "value not an integer" — in both cases the code leaves its state alone.
(For a nonempty separator, "sep in s" holds exactly when the split has a
second component.) -/
def extractToken (h : String) : Option Int :=
  match pySplit h "skiptoken=" with
  | _ :: second :: _ => pyInt ((pySplit second "&").headD "")
  | _ => none

/-- Token contributed by a single link in the entry-level scan: only links with
rel="next" are considered, and only when their href yields a parseable token. -/
def linkToken (l : Link) : Option Int :=
  if l.rel = some "next" then l.href.bind extractToken else none

/-- Tokens contributed by a link list, in document order. -/
def linkTokens (links : List Link) : List Int :=
  links.filterMap linkToken

/-- Entry-level next-link scan, lines 106-114: for each link with rel="next",
parse its skiptoken; a successful parse overwrites `current_skiptoken` and sets
`next_link_found`. State is (current_skiptoken, next_link_found). `none` models
the uncaught `TypeError` from `"skiptoken=" in None` when a rel="next" link has
no href attribute. -/
def scanNextLinks : List Link → Int × Bool → Option (Int × Bool)
  | [], st => some st
  | l :: rest, st =>
    if l.rel = some "next" then
      match l.href with
      | none => none
      | some h =>
        match extractToken h with
        | some n => scanNextLinks rest (n, true)
        | none => scanNextLinks rest st
    else scanNextLinks rest st

/-- Deletion check on the parsed nested content, lines 127-133: iterate over the
immediate children of the nested root; an entry is deleted when some child whose
tag starts with "{TK_NAMESPACE}" carries the attribute {TK_NAMESPACE}verwijderd
equal to "true". (The root element itself is never inspected.) -/
def isDeletedCheck (root : Xml) : Bool :=
  root.children.any (fun c =>
    pyStartsWith c.tag tkBrace && (c.get tkDelAttr == some "true"))

/-- Enclosure URL of an entry, lines 142-149: href of the first link with
rel="enclosure"; an absent href or empty-string href is falsy
(`if not enclosure_url: continue`), so the entry is skipped. -/
def enclosureUrl (e : Entry) : Option String :=
  match e.links.find? (fun l => l.rel == some "enclosure") with
  | none => none
  | some l =>
    match l.href with
    | none => none
    | some u => if u = "" then none else some u

/-- Effective content type of an enclosure response, lines 161-166:
`dresp.headers['Content-Type'].split(';')[0].strip().lower()` when the header
is present, else the initial value "unknown". -/
def effectiveContentType (r : EncResponse) : String :=
  match r.contentType with
  | some ct => pyLower (pyStrip ((pySplit ct ";").headD ""))
  | none => "unknown"

/-- Fetch and normalize one enclosure, lines 156-191: HTTP failure is caught
(entry skipped); otherwise dispatch on the effective content type —
application/pdf runs the external converter and skips when the extracted text is
empty/whitespace-only; text/* and application/xml pass `dresp.text` through;
Word-processor types and everything else are skipped. A produced Document is
appended as {"URL": url, "content": text, "Source": "Tweede Kamer"}. -/
def processLiveEntry (env : String → EncResult) (u : String) : Option Document :=
  match env u with
  | EncResult.httpError => none
  | EncResult.ok r =>
    if effectiveContentType r = "application/pdf" then
      if pyStrip r.pdfText = "" then none
      else some (Document.mk u r.pdfText "Tweede Kamer")
    else if pyStartsWith (effectiveContentType r) "text/" = true ∨
        effectiveContentType r = "application/xml" then
      some (Document.mk u r.text "Tweede Kamer")
    else if effectiveContentType r = "application/msword" ∨
        effectiveContentType r =
          "application/vnd.openxmlformats-officedocument.wordprocessingml.document" then
      none
    else none

/-- Enclosure stage of one entry: skip when there is no usable enclosure URL,
else fetch and normalize. -/
def liveFetch (env : String → EncResult) (e : Entry) : Option Document :=
  match enclosureUrl e with
  | none => none
  | some u => processLiveEntry env u

/-- Full processing of one entry, lines 103-191, in source order: next-link scan
first (lines 106-114), then the deletion filter on the nested content (malformed
nested XML → `continue`; a deleted entry → `continue`), then enclosure fetch and
normalization. Returns the updated (skiptoken, found) state and the Document the
entry contributed, if any; `none` models an uncaught exception. -/
def processEntry (env : String → EncResult) (e : Entry) (st : Int × Bool) :
    Option ((Int × Bool) × Option Document) :=
  match scanNextLinks e.links st with
  | none => none
  | some st' =>
    match e.content with
    | NestedContent.malformed => some (st', none)
    | NestedContent.ok root =>
        if isDeletedCheck root then some (st', none)
        else some (st', liveFetch env e)
    | NestedContent.absent => some (st', liveFetch env e)
    | NestedContent.noText => some (st', liveFetch env e)

/-- The `for entry in entries` loop: thread the (skiptoken, found) state through
every entry, appending produced Documents to the batch in order. -/
def processEntries (env : String → EncResult) :
    List Entry → Int × Bool → List Document → Option ((Int × Bool) × List Document)
  | [], st, docs => some (st, docs)
  | e :: rest, st, docs =>
    match processEntry env e st with
    | none => none
    | some (st', d) =>
      match d with
      | some doc => processEntries env rest st' (docs ++ [doc])
      | none => processEntries env rest st' docs

/-- Feed-level fallback, lines 200-210: executed only when no entry-level token
was found; takes the first feed-root link with rel="next"
(`root.find("atom:link[@rel='next']")`) and tries to parse its skiptoken.
`none` models the uncaught `TypeError` on an href-less next link. -/
def feedLevelToken (p : FeedPage) (c : Int) : Option (Int × Bool) :=
  match p.feedLinks.find? (fun l => l.rel == some "next") with
  | none => some (c, false)
  | some l =>
    match l.href with
    | none => none
    | some h =>
      match extractToken h with
      | some n => some (n, true)
      | none => some (c, false)

/-- One iteration body of the `while True` loop on a successfully parsed page:
process the entries (with `next_link_found` reset to False, line 101), then
consult the feed-level link only when no entry-level token was found. -/
def pageStep (env : String → EncResult) (p : FeedPage) (c : Int)
    (docs : List Document) : Option ((Int × Bool) × List Document) :=
  match processEntries env p.entries (c, false) docs with
  | none => none
  | some ((c1, found), docs1) =>
    if found then some ((c1, true), docs1)
    else
      match feedLevelToken p c1 with
      | none => none
      | some (c2, f2) => some ((c2, f2), docs1)

/-- The `while True` loop of `fetch_all_docs`, lines 76-221, over the sequence
of page-fetch outcomes: a fetch error breaks (then `save_skiptoken` runs); a
page body that is not well-formed XML raises at line 95, uncaught; a parsed page
is processed, and the loop continues exactly when a next token was found. -/
def runLoop (env : String → EncResult) :
    List PageResult → Int → List Document → RunOutcome
  | [], c, docs => RunOutcome.finished c docs
  | PageResult.fetchError :: _, c, docs => RunOutcome.finished c docs
  | PageResult.parseError :: _, _, _ => RunOutcome.raised
  | PageResult.page p :: rest, c, docs =>
    match pageStep env p c docs with
    | none => RunOutcome.raised
    | some ((c', f), docs') =>
      if f then runLoop env rest c' docs'
      else RunOutcome.finished c' docs'

/-- fetch_all_docs(category): start from the stored skiptoken
(`get_skiptoken`, -1 when absent) and an empty batch, and drive the loop. -/
def fetch_all_docs (env : String → EncResult) (storedToken : Int)
    (pages : List PageResult) : RunOutcome :=
  runLoop env pages storedToken []

/-- Last element of a list, with a default: the "most recently seen value wins"
accumulator the entry-level scan implements. -/
def lastD : List Int → Int → Int
  | [], d => d
  | t :: ts, _ => lastD ts t

/-- Tokens contributed by the links of a list of entries, in order. -/
def entriesTokens : List Entry → List Int
  | [] => []
  | e :: rest => linkTokens e.links ++ entriesTokens rest

/-- All tokens a parsed page can contribute: entry-level ones then feed-level ones. -/
def pageTokens (p : FeedPage) : List Int :=
  entriesTokens p.entries ++ linkTokens p.feedLinks

/-- All tokens a sequence of page outcomes can contribute. -/
def pagesTokens : List PageResult → List Int
  | [] => []
  | PageResult.page p :: rest => pageTokens p ++ pagesTokens rest
  | PageResult.fetchError :: rest => pagesTokens rest
  | PageResult.parseError :: rest => pagesTokens rest

/-! Helper lemmas shared by the claim theorems. -/

theorem lastD_append (a b : List Int) (d : Int) :
    lastD (a ++ b) d = lastD b (lastD a d) := by
  induction a generalizing d with
  | nil => rfl
  | cons x xs ih => simpa [lastD] using ih x

theorem lastD_mem (l : List Int) (d : Int) : lastD l d = d ∨ lastD l d ∈ l := by
  induction l generalizing d with
  | nil => exact Or.inl rfl
  | cons x xs ih =>
    rcases ih x with h | h
    · exact Or.inr (by simp [lastD, h])
    · exact Or.inr (by simp [lastD]; exact Or.inr h)

theorem isEmpty_append (a b : List Int) :
    (a ++ b).isEmpty = (a.isEmpty && b.isEmpty) := by
  cases a <;> simp

theorem bool_or_notand (a x y : Bool) :
    ((a || !x) || !y) = (a || !(x && y)) := by
  cases a <;> cases x <;> cases y <;> rfl


theorem scan_cons_other (l : Link) (rest : List Link) (st : Int × Bool)
    (hrel : ¬ l.rel = some "next") :
    scanNextLinks (l :: rest) st = scanNextLinks rest st := by
  simp [scanNextLinks, hrel]

theorem scan_cons_nohref (l : Link) (rest : List Link) (st : Int × Bool)
    (hrel : l.rel = some "next") (hl : l.href = none) :
    scanNextLinks (l :: rest) st = none := by
  simp [scanNextLinks, hrel, hl]

theorem scan_cons_tok (l : Link) (rest : List Link) (st : Int × Bool)
    (h n : _) (hrel : l.rel = some "next") (hl : l.href = some h)
    (het : extractToken h = some n) :
    scanNextLinks (l :: rest) st = scanNextLinks rest (n, true) := by
  simp [scanNextLinks, hrel, hl, het]

theorem scan_cons_notok (l : Link) (rest : List Link) (st : Int × Bool)
    (h : String) (hrel : l.rel = some "next") (hl : l.href = some h)
    (het : extractToken h = none) :
    scanNextLinks (l :: rest) st = scanNextLinks rest st := by
  simp [scanNextLinks, hrel, hl, het]

theorem linkToken_eq_some (l : Link) (h : String) (n : Int)
    (hrel : l.rel = some "next") (hl : l.href = some h)
    (het : extractToken h = some n) : linkToken l = some n := by
  simp [linkToken, hrel, hl, het]

/-- Characterization of the entry-level next-link scan: when it does not raise,
the resulting skiptoken is the last parseable token among the rel="next" links
(the incoming one when there is none), and the found flag records whether any
token was seen. -/
theorem scanNextLinks_char (links : List Link) (st st' : Int × Bool)
    (hs : scanNextLinks links st = some st') :
    st'.1 = lastD (linkTokens links) st.1 ∧
    st'.2 = (st.2 || !(linkTokens links).isEmpty) := by
  induction links generalizing st with
  | nil =>
    simp only [scanNextLinks, Option.some.injEq] at hs
    subst hs
    simp [linkTokens, lastD]
  | cons l rest ih =>
    by_cases hrel : l.rel = some "next"
    · rcases hl : l.href with _ | hh
      · rw [scan_cons_nohref l rest st hrel hl] at hs
        cases hs
      · rcases het : extractToken hh with _ | n
        · rw [scan_cons_notok l rest st hh hrel hl het] at hs
          have h2 := ih st hs
          have hlt : linkToken l = none := by simp [linkToken, hrel, hl, het]
          simpa [linkTokens, List.filterMap_cons, hlt] using h2
        · rw [scan_cons_tok l rest st hh n hrel hl het] at hs
          have h2 := ih (n, true) hs
          have hlt : linkToken l = some n := linkToken_eq_some l hh n hrel hl het
          constructor
          · simpa [linkTokens, List.filterMap_cons, hlt, lastD] using h2.1
          · simp only [linkTokens, List.filterMap_cons, hlt] at *
            simp [h2.2]
    · rw [scan_cons_other l rest st hrel] at hs
      have h2 := ih st hs
      have hlt : linkToken l = none := by simp [linkToken, hrel]
      simpa [linkTokens, List.filterMap_cons, hlt] using h2

/-- Whatever an entry contributes to the batch, its effect on the
(skiptoken, found) state is exactly the next-link scan of its links. -/
theorem processEntry_scan (env : String → EncResult) (e : Entry)
    (st st' : Int × Bool) (d : Option Document)
    (hp : processEntry env e st = some (st', d)) :
    scanNextLinks e.links st = some st' := by
  unfold processEntry at hp
  rcases hs : scanNextLinks e.links st with _ | s
  · rw [hs] at hp; cases hp
  · rw [hs] at hp
    rcases hc : e.content with _ | _ | _ | root <;> rw [hc] at hp <;>
      simp only [] at hp
    · cases Option.some.inj hp; rfl
    · cases Option.some.inj hp; rfl
    · cases Option.some.inj hp; rfl
    · by_cases hd : isDeletedCheck root
      · rw [if_pos hd] at hp; cases Option.some.inj hp; rfl
      · rw [if_neg hd] at hp; cases Option.some.inj hp; rfl

/-- Characterization of the whole entry loop of a page: when it does not raise,
the final skiptoken is the last parseable token among all entries' rel="next"
links, and the found flag records whether any such token exists. -/
theorem processEntries_char (env : String → EncResult) (entries : List Entry)
    (st st' : Int × Bool) (docs docs' : List Document)
    (hp : processEntries env entries st docs = some (st', docs')) :
    st'.1 = lastD (entriesTokens entries) st.1 ∧
    st'.2 = (st.2 || !(entriesTokens entries).isEmpty) := by
  induction entries generalizing st docs with
  | nil =>
    simp only [processEntries, Option.some.injEq] at hp
    cases hp
    simp [entriesTokens, lastD]
  | cons e rest ih =>
    unfold processEntries at hp
    rcases hpe : processEntry env e st with _ | p
    · rw [hpe] at hp; cases hp
    · rw [hpe] at hp
      obtain ⟨st1, d⟩ := p
      have hscan := processEntry_scan env e st st1 d hpe
      have h1 := scanNextLinks_char e.links st st1 hscan
      have h2 : st'.1 = lastD (entriesTokens rest) st1.1 ∧
          st'.2 = (st1.2 || !(entriesTokens rest).isEmpty) := by
        cases d with
        | some doc => exact ih st1 (docs ++ [doc]) hp
        | none => exact ih st1 docs hp
      constructor
      · rw [h2.1, h1.1, entriesTokens, lastD_append]
      · rw [h2.2, h1.2, entriesTokens, isEmpty_append, ← bool_or_notand]

/-- Provenance of the feed-level fallback: it yields either the incoming
skiptoken (nothing found) or a token parsed from a feed-level next link. -/
theorem feedLevelToken_mem (p : FeedPage) (c c2 : Int) (f2 : Bool)
    (hf : feedLevelToken p c = some (c2, f2)) :
    c2 = c ∨ c2 ∈ linkTokens p.feedLinks := by
  unfold feedLevelToken at hf
  rcases hfind : p.feedLinks.find? (fun l => l.rel == some "next") with _ | l
  · rw [hfind] at hf
    cases Option.some.inj hf
    exact Or.inl rfl
  · rw [hfind] at hf
    dsimp only at hf
    have hmem : l ∈ p.feedLinks := List.mem_of_find?_eq_some hfind
    have hrel : l.rel = some "next" := by
      have := List.find?_some hfind
      simpa using this
    rcases hl : l.href with _ | h
    · rw [hl] at hf; cases hf
    · rw [hl] at hf
      dsimp only at hf
      rcases het : extractToken h with _ | n <;> rw [het] at hf <;> dsimp only at hf
      · cases Option.some.inj hf
        exact Or.inl rfl
      · have hc2 : n = c2 := congrArg Prod.fst (Option.some.inj hf)
        subst hc2
        refine Or.inr ?_
        have hlt : linkToken l = some n := linkToken_eq_some l h n hrel hl het
        exact List.mem_filterMap.mpr ⟨l, hmem, hlt⟩

/-- Provenance of one page step: the skiptoken after a page is either the
incoming one or one of the tokens the page's next links carry. -/
theorem pageStep_mem (env : String → EncResult) (p : FeedPage) (c c' : Int)
    (f : Bool) (docs docs' : List Document)
    (hps : pageStep env p c docs = some ((c', f), docs')) :
    c' = c ∨ c' ∈ pageTokens p := by
  unfold pageStep at hps
  rcases hpe : processEntries env p.entries (c, false) docs with _ | q
  · rw [hpe] at hps; cases hps
  · rw [hpe] at hps
    dsimp only at hps
    obtain ⟨⟨c1, found⟩, docs1⟩ := q
    have hch := processEntries_char env p.entries (c, false) (c1, found) docs docs1 hpe
    have hc1 : c1 = c ∨ c1 ∈ entriesTokens p.entries := by
      have := lastD_mem (entriesTokens p.entries) c
      rw [← hch.1] at this
      exact this
    cases found with
    | true =>
      rw [if_pos rfl] at hps
      cases Option.some.inj hps
      rcases hc1 with h | h
      · exact Or.inl h
      · exact Or.inr (by unfold pageTokens; exact List.mem_append_left _ h)
    | false =>
      rw [if_neg Bool.false_ne_true] at hps
      rcases hft : feedLevelToken p c1 with _ | q2
      · rw [hft] at hps; cases hps
      · rw [hft] at hps
        dsimp only at hps
        obtain ⟨c2, f2⟩ := q2
        cases Option.some.inj hps
        have h2 := feedLevelToken_mem p c1 c2 f2 hft
        rcases h2 with h2 | h2
        · subst h2
          rcases hc1 with h | h
          · exact Or.inl h
          · exact Or.inr (by unfold pageTokens; exact List.mem_append_left _ h)
        · exact Or.inr (by unfold pageTokens; exact List.mem_append_right _ h2)

/-- Provenance of the loop cursor: a finished run's saved skiptoken is either
the one it started from or a token read from some page's next links. -/
theorem runLoop_mem (env : String → EncResult) (pages : List PageResult)
    (c c' : Int) (docs docs' : List Document)
    (hr : runLoop env pages c docs = RunOutcome.finished c' docs') :
    c' = c ∨ c' ∈ pagesTokens pages := by
  induction pages generalizing c docs with
  | nil =>
    simp only [runLoop] at hr
    cases hr
    exact Or.inl rfl
  | cons pr rest ih =>
    cases pr with
    | fetchError =>
      simp only [runLoop] at hr
      cases hr
      exact Or.inl rfl
    | parseError => simp only [runLoop] at hr; cases hr
    | page p =>
      simp only [runLoop] at hr
      rcases hps : pageStep env p c docs with _ | q
      · rw [hps] at hr; cases hr
      · rw [hps] at hr
        dsimp only at hr
        obtain ⟨⟨c1, f⟩, docs1⟩ := q
        have hmem := pageStep_mem env p c c1 f docs docs1 hps
        cases f with
        | true =>
          rw [if_pos rfl] at hr
          have := ih c1 docs1 hr
          rcases this with h | h
          · subst h
            rcases hmem with h | h
            · exact Or.inl h
            · exact Or.inr (by simp only [pagesTokens]; exact List.mem_append_left _ h)
          · exact Or.inr (by simp only [pagesTokens]; exact List.mem_append_right _ h)
        | false =>
          rw [if_neg Bool.false_ne_true] at hr
          cases hr
          rcases hmem with h | h
          · exact Or.inl h
          · exact Or.inr (by simp only [pagesTokens]; exact List.mem_append_left _ h)

/-! Concrete fixtures used by witnesses and counterexamples. -/

/-- Environment in which every enclosure fetch fails with an HTTP error. -/
def failEnv : String → EncResult := fun _ => EncResult.httpError

/-- Environment in which every enclosure fetch returns text/plain "hello". -/
def textEnv : String → EncResult :=
  fun _ => EncResult.ok (EncResponse.mk (some "text/plain") "hello" "")

/-- Feed page with zero entries and a feed-level next link with skiptoken 42. -/
def feedNext42 : FeedPage :=
  FeedPage.mk [] [Link.mk (some "next") (some "?skiptoken=42")]

/-- Feed page with zero entries and no links at all: end of feed. -/
def emptyPage : FeedPage := FeedPage.mk [] []

/-- C1: tested as stated, a malformed feed page body does NOT terminate the run
gracefully — `etree.fromstring` at line 95 sits outside the try/except of lines
82-93, so the XMLSyntaxError escapes `fetch_all_docs`: no cursor is persisted
and no partial batch is returned. Only a transport-level fetch error (line 91)
takes the graceful path. This theorem states the amended behavior: at any point
of the run, a parse-failing page makes the run raise, while a fetch error makes
it finish, saving the current cursor and returning the batch collected so far. -/
theorem C1_page_error_termination (env : String → EncResult) (tok : Int)
    (docs : List Document) (rest : List PageResult) :
    runLoop env (PageResult.parseError :: rest) tok docs = RunOutcome.raised ∧
    runLoop env (PageResult.fetchError :: rest) tok docs =
      RunOutcome.finished tok docs :=
  ⟨rfl, rfl⟩

/-- C1 counterexample: a run whose first page body is not well-formed XML ends
in an escaped exception, not in a graceful `finished` outcome with a persisted
cursor and partial batch as the claim asserts. -/
theorem C1_counterexample :
    fetch_all_docs failEnv 5 [PageResult.parseError] = RunOutcome.raised ∧
    ¬ ∃ c docs, fetch_all_docs failEnv 5 [PageResult.parseError] =
        RunOutcome.finished c docs := by
  refine ⟨rfl, ?_⟩
  rintro ⟨c, docs, hc⟩
  have hr : RunOutcome.raised = RunOutcome.finished c docs := hc
  exact RunOutcome.noConfusion hr

/-- C5: at the end of every run that terminates through the loop's `break`
paths — a page-level fetch error, or end of feed — `save_skiptoken` runs with
the last known cursor, even when zero Documents were collected. In particular
(scenario B) a page with zero entries and a feed-level next token of 42,
followed by an end-of-feed page, yields an empty batch and a stored cursor of
42. -/
theorem C5_saves_cursor (env : String → EncResult) (tok : Int)
    (rest : List PageResult) :
    fetch_all_docs env tok (PageResult.fetchError :: rest) =
      RunOutcome.finished tok [] ∧
    fetch_all_docs env tok [PageResult.page emptyPage] =
      RunOutcome.finished tok [] ∧
    fetch_all_docs env tok [PageResult.page feedNext42, PageResult.page emptyPage] =
      RunOutcome.finished 42 [] :=
  ⟨rfl, rfl, rfl⟩

/-- C2: amended. The code inspects only the immediate children of the nested
content root (lines 127-133), never the root element itself; an entry is
dropped (contributes no Document, though its links still feed the token scan)
exactly when some tk-namespaced child of the nested root carries
tk:verwijderd="true". -/
theorem C2_deletion_filter (env : String → EncResult) (e : Entry) (root : Xml)
    (st : Int × Bool) (hc : e.content = NestedContent.ok root)
    (hd : isDeletedCheck root = true) :
    processEntry env e st =
      (scanNextLinks e.links st).map (fun s => (s, (none : Option Document))) := by
  unfold processEntry
  rw [hc]
  rcases hs : scanNextLinks e.links st with _ | s
  · rfl
  · dsimp only
    rw [if_pos hd]
    rfl

/-- Nested content root that itself carries tk:verwijderd="true" (and has no
children). -/
def rootAttrDel : Xml := Xml.elem (tkBrace ++ "document") [(tkDelAttr, "true")] []

/-- Entry whose nested root is marked deleted on the root element and which has
a valid enclosure link. -/
def rootAttrEntry : Entry :=
  Entry.mk [Link.mk (some "enclosure") (some "u")] (NestedContent.ok rootAttrDel)

/-- C2 counterexample: the nested root element itself carries
tk:verwijderd="true", yet the entry is not treated as deleted — the run appends
a Document for it, contradicting the claim that such an entry never produces a
Document. -/
theorem C2_counterexample :
    rootAttrDel.get tkDelAttr = some "true" ∧
    isDeletedCheck rootAttrDel = false ∧
    fetch_all_docs textEnv 0 [PageResult.page (FeedPage.mk [rootAttrEntry] [])] =
      RunOutcome.finished 0 [Document.mk "u" "hello" "Tweede Kamer"] :=
  ⟨rfl, rfl, rfl⟩

/-- Nested content whose root has a tk-namespaced child carrying
tk:verwijderd="true". -/
def delChildRoot : Xml :=
  Xml.elem "nested" [] [Xml.elem (tkBrace ++ "besluit") [(tkDelAttr, "true")] []]

/-- Entry marked deleted in the child position, with a valid enclosure link. -/
def delChildEntry : Entry :=
  Entry.mk [Link.mk (some "enclosure") (some "u")] (NestedContent.ok delChildRoot)

/-- C2 witness: the amended deletion filter applied to a concrete deleted entry
that carries a valid enclosure link, in an environment where the enclosure
would have produced a Document. -/
theorem C2_witness :
    processEntry textEnv delChildEntry (0, false) =
      (scanNextLinks delChildEntry.links (0, false)).map
        (fun s => (s, (none : Option Document))) :=
  C2_deletion_filter textEnv delChildEntry delChildRoot (0, false) rfl rfl

/-- Environment returning a text/plain response with an empty body. -/
def emptyTextEnv : String → EncResult :=
  fun _ => EncResult.ok (EncResponse.mk (some "text/plain") "" "")

/-- Entry with a valid enclosure link and no nested content. -/
def plainEntry : Entry :=
  Entry.mk [Link.mk (some "enclosure") (some "u")] NestedContent.absent

/-- C3 counterexample: a text/plain enclosure with an empty body produces a
Document whose content is the empty string — the batch invariant "content is
non-empty" fails for text enclosures (the code only enforces non-emptiness on
the PDF branch, line 171). -/
theorem C3_counterexample :
    fetch_all_docs emptyTextEnv 0 [PageResult.page (FeedPage.mk [plainEntry] [])] =
      RunOutcome.finished 0 [Document.mk "u" "" "Tweede Kamer"] ∧
    (Document.mk "u" "" "Tweede Kamer").content = "" :=
  ⟨rfl, rfl⟩

/-- C3: amended. A Document produced from an application/pdf enclosure always
has content with non-whitespace characters (empty or whitespace-only extraction
is skipped at line 171-173); a Document produced from a text/* or
application/xml enclosure carries the decoded response text verbatim, which may
be empty — non-emptiness is not enforced on that branch. -/
theorem C3_content_invariant (env : String → EncResult) (u : String)
    (r : EncResponse) (d : Document) (h : env u = EncResult.ok r) :
    (effectiveContentType r = "application/pdf" →
        processLiveEntry env u = some d → ¬ pyStrip d.content = "") ∧
    (pyStartsWith (effectiveContentType r) "text/" = true ∨
        effectiveContentType r = "application/xml" →
        processLiveEntry env u = some d → d.content = r.text) := by
  constructor
  · intro hct hpe
    unfold processLiveEntry at hpe
    rw [h] at hpe
    dsimp only at hpe
    rw [hct, if_pos rfl] at hpe
    by_cases hstr : pyStrip r.pdfText = ""
    · rw [if_pos hstr] at hpe
      cases hpe
    · rw [if_neg hstr] at hpe
      have hd := Option.some.inj hpe
      rw [← hd]
      exact hstr
  · intro hct hpe
    have hne : ¬ effectiveContentType r = "application/pdf" := by
      intro hq
      rw [hq] at hct
      rcases hct with hct | hct
      · exact absurd hct (by decide)
      · exact absurd hct (by decide)
    unfold processLiveEntry at hpe
    rw [h] at hpe
    dsimp only at hpe
    rw [if_neg hne, if_pos hct] at hpe
    have hd := Option.some.inj hpe
    rw [← hd]

/-- Enclosure response declared application/pdf whose extraction yields "x". -/
def pdfEnv : String → EncResult :=
  fun _ => EncResult.ok (EncResponse.mk (some "application/pdf") "" "x")

/-- C3 witness: the PDF half of the amended invariant at a concrete PDF
response whose extraction yields "x". -/
theorem C3_witness : ¬ pyStrip (Document.mk "u" "x" "Tweede Kamer").content = "" :=
  (C3_content_invariant pdfEnv "u" (EncResponse.mk (some "application/pdf") "" "x")
    (Document.mk "u" "x" "Tweede Kamer") rfl).1 rfl rfl

/-- Feed page that moves the cursor back to 5. -/
def back5Page : FeedPage :=
  FeedPage.mk [] [Link.mk (some "next") (some "?skiptoken=5")]

/-- C4 counterexample: starting from stored cursor 100, a feed whose next link
carries skiptoken=5 makes the run persist cursor 5 < 100 — the code adopts
whatever token the feed supplies and enforces no monotonicity. -/
theorem C4_counterexample :
    fetch_all_docs failEnv 100 [PageResult.page back5Page, PageResult.page emptyPage] =
      RunOutcome.finished 5 [] ∧ ¬ (100 ≤ (5 : Int)) :=
  ⟨rfl, by decide⟩

/-- C4: amended. The persisted cursor is either the cursor read at run start or
one of the tokens carried by the feed's next links; consequently the cursor is
monotonically non-decreasing exactly under the assumption that every token the
feed supplies is ≥ the starting cursor (true for the real feed's forward-only
tokens, but not enforced by the code). -/
theorem C4_cursor_provenance (env : String → EncResult) (tok : Int)
    (pages : List PageResult) (c' : Int) (docs' : List Document)
    (hm : ∀ t ∈ pagesTokens pages, tok ≤ t)
    (hrun : fetch_all_docs env tok pages = RunOutcome.finished c' docs') :
    (c' = tok ∨ c' ∈ pagesTokens pages) ∧ tok ≤ c' := by
  have hmem := runLoop_mem env pages tok c' [] docs' hrun
  refine ⟨hmem, ?_⟩
  rcases hmem with h | h
  · exact h.symm.le
  · exact hm c' h

/-- C4 witness: the provenance theorem at a concrete two-page run moving the
cursor from 0 to 42. -/
theorem C4_witness :
    ((42 : Int) = 0 ∨
        (42 : Int) ∈ pagesTokens [PageResult.page feedNext42, PageResult.page emptyPage]) ∧
    (0 : Int) ≤ 42 :=
  C4_cursor_provenance failEnv 0 [PageResult.page feedNext42, PageResult.page emptyPage]
    42 [] (by decide) rfl

/-- C6: token-extraction policy of one page. When the page step does not raise,
the adopted state is determined as the claim says: if any entry-level rel="next"
link carried a parseable token, the adopted token is the last such token in
entry order (the feed-level link plays no role); only when no entry-level token
exists does the outcome coincide with consulting the feed-level next link. -/
theorem C6_token_extraction (env : String → EncResult) (p : FeedPage)
    (c c' : Int) (f' : Bool) (docs docs' : List Document)
    (hps : pageStep env p c docs = some ((c', f'), docs')) :
    ((entriesTokens p.entries).isEmpty = false →
        c' = lastD (entriesTokens p.entries) c ∧ f' = true) ∧
    ((entriesTokens p.entries).isEmpty = true →
        feedLevelToken p c = some (c', f')) := by
  unfold pageStep at hps
  rcases hpe : processEntries env p.entries (c, false) docs with _ | q
  · rw [hpe] at hps; cases hps
  · rw [hpe] at hps
    obtain ⟨⟨c1, found⟩, docs1⟩ := q
    dsimp only at hps
    have hch := processEntries_char env p.entries (c, false) (c1, found) docs docs1 hpe
    have hch1 : c1 = lastD (entriesTokens p.entries) c := hch.1
    have hch2 : found = (false || !(entriesTokens p.entries).isEmpty) := hch.2
    constructor
    · intro hne
      have hfound : found = true := by rw [hch2, hne]; rfl
      rw [hfound, if_pos rfl] at hps
      have hinj := Option.some.inj hps
      have h1 : c1 = c' := congrArg (fun x => x.1.1) hinj
      have h2 : (true : Bool) = f' := congrArg (fun x => x.1.2) hinj
      refine ⟨?_, h2.symm⟩
      rw [← h1]
      exact hch1
    · intro he
      have hnil : entriesTokens p.entries = [] := List.isEmpty_iff.mp he
      have hfound : found = false := by rw [hch2, he]; rfl
      have hc1 : c1 = c := by rw [hch1, hnil]; rfl
      rw [hfound, if_neg Bool.false_ne_true] at hps
      rcases hft : feedLevelToken p c1 with _ | q2
      · rw [hft] at hps; cases hps
      · rw [hft] at hps
        obtain ⟨c2, f2⟩ := q2
        dsimp only at hps
        have hinj := Option.some.inj hps
        have h1 : c2 = c' := congrArg (fun x => x.1.1) hinj
        have h2 : f2 = f' := congrArg (fun x => x.1.2) hinj
        rw [← hc1, hft, h1, h2]

/-- Entry carrying only an entry-level next link with skiptoken 7. -/
def tokEntry7 : Entry :=
  Entry.mk [Link.mk (some "next") (some "?skiptoken=7")] NestedContent.absent

/-- Entry carrying only an entry-level next link with skiptoken 9. -/
def tokEntry9 : Entry :=
  Entry.mk [Link.mk (some "next") (some "?skiptoken=9")] NestedContent.absent

/-- Page with two tokened entries (7 then 9) and a feed-level link with token
100 that must be ignored. -/
def tokPage : FeedPage :=
  FeedPage.mk [tokEntry7, tokEntry9] [Link.mk (some "next") (some "?skiptoken=100")]

/-- C6 witness: on the concrete page the adopted token is 9 — the last
entry-level token — and not the feed-level 100. -/
theorem C6_witness :
    ((entriesTokens tokPage.entries).isEmpty = false →
        (9 : Int) = lastD (entriesTokens tokPage.entries) 0 ∧ true = true) ∧
    ((entriesTokens tokPage.entries).isEmpty = true →
        feedLevelToken tokPage 0 = some (9, true)) :=
  C6_token_extraction failEnv tokPage 0 9 true [] [] rfl

/-- C7: fault isolation of a failing enclosure fetch. An entry that reaches the
enclosure stage (not deleted, nested content not malformed) whose enclosure
fetch fails with an HTTP/network error contributes no Document, and the rest of
the page is processed exactly as if it started after that entry — from the
state st' that already includes any next token recorded from the failing
entry's links, so the page's token survives and is persisted downstream. -/
theorem C7_enclosure_fault_isolation (env : String → EncResult) (e : Entry)
    (st st' : Int × Bool) (u : String)
    (hscan : scanNextLinks e.links st = some st')
    (hcontent : e.content = NestedContent.absent ∨ e.content = NestedContent.noText ∨
        ∃ root, e.content = NestedContent.ok root ∧ isDeletedCheck root = false)
    (hurl : enclosureUrl e = some u)
    (hfail : env u = EncResult.httpError) :
    ∀ rest docs, processEntries env (e :: rest) st docs = processEntries env rest st' docs := by
  intro rest docs
  have hlf : liveFetch env e = none := by
    unfold liveFetch
    rw [hurl]
    dsimp only
    unfold processLiveEntry
    rw [hfail]
  have hpe : processEntry env e st = some (st', none) := by
    unfold processEntry
    rw [hscan]
    dsimp only
    rcases hcontent with h | h | ⟨root, h, hd⟩ <;> rw [h] <;> dsimp only
    · rw [hlf]
    · rw [hlf]
    · rw [if_neg (by rw [hd]; exact Bool.false_ne_true), hlf]
  simp only [processEntries]
  rw [hpe]

/-- Environment failing exactly on "u" and serving text elsewhere. -/
def envFailU : String → EncResult :=
  fun s => if s = "u" then EncResult.httpError
    else EncResult.ok (EncResponse.mk (some "text/plain") "x" "")

/-- First entry: records token 7 and has enclosure "u" whose fetch fails. -/
def failUEntry : Entry :=
  Entry.mk [Link.mk (some "next") (some "?skiptoken=7"),
    Link.mk (some "enclosure") (some "u")] NestedContent.absent

/-- Second entry: enclosure "v", fetch succeeds. -/
def okVEntry : Entry :=
  Entry.mk [Link.mk (some "enclosure") (some "v")] NestedContent.absent

/-- C7 witness: with the failing entry first, processing the page equals
processing the remaining entries from state (7, true) — the failed fetch
neither stopped the page nor lost the recorded token. -/
theorem C7_witness :
    processEntries envFailU [failUEntry, okVEntry] (0, false) [] =
      processEntries envFailU [okVEntry] (7, true) [] :=
  C7_enclosure_fault_isolation envFailU failUEntry (0, false) (7, true) "u"
    rfl (Or.inl rfl) rfl rfl [okVEntry] []

/-- C8: content-type dispatch on an enclosure response. A response declared
application/pdf whose extracted text is empty or whitespace-only yields no
Document; a response declared text/plain yields a Document whose content is the
decoded payload text verbatim; a response declared application/msword or the
OOXML word-processing type yields no Document. -/
theorem C8_dispatch_table (env : String → EncResult) (u : String)
    (r : EncResponse) (h : env u = EncResult.ok r) :
    (effectiveContentType r = "application/pdf" → pyStrip r.pdfText = "" →
        processLiveEntry env u = none) ∧
    (effectiveContentType r = "text/plain" →
        processLiveEntry env u = some (Document.mk u r.text "Tweede Kamer")) ∧
    (effectiveContentType r = "application/msword" ∨
        effectiveContentType r =
          "application/vnd.openxmlformats-officedocument.wordprocessingml.document" →
        processLiveEntry env u = none) := by
  refine ⟨?_, ?_, ?_⟩
  · intro hct hstr
    unfold processLiveEntry
    rw [h]
    dsimp only
    rw [hct, if_pos rfl, if_pos hstr]
  · intro hct
    unfold processLiveEntry
    rw [h]
    dsimp only
    rw [hct, if_neg (by decide), if_pos (by decide)]
  · intro hct
    rcases hct with hct | hct <;>
      (unfold processLiveEntry; rw [h]; dsimp only;
       rw [hct, if_neg (by decide), if_neg (by decide), if_pos (by decide)])

/-- C8 witness: a concrete text/plain response passes its payload through as
the Document content. -/
theorem C8_witness :
    processLiveEntry textEnv "w" =
      some (Document.mk "w" "hello" "Tweede Kamer") :=
  (C8_dispatch_table textEnv "w"
    (EncResponse.mk (some "text/plain") "hello" "") rfl).2.1 rfl

/-- C9: the effective content type is the Content-Type header value cut at the
first ';', stripped of surrounding whitespace and lowercased (so
"Text/Plain; charset=utf-8" dispatches as "text/plain"); when the header is
absent the effective type stays the initial "unknown", which matches no branch
of the dispatch, so the entry yields no Document. -/
theorem C9_header_dispatch (env : String → EncResult) (u : String)
    (body pdft : String) :
    (∀ ct : String,
        effectiveContentType (EncResponse.mk (some ct) body pdft) =
          pyLower (pyStrip ((pySplit ct ";").headD ""))) ∧
    effectiveContentType (EncResponse.mk none body pdft) = "unknown" ∧
    effectiveContentType (EncResponse.mk (some "Text/Plain; charset=utf-8") body pdft) =
      "text/plain" ∧
    (env u = EncResult.ok (EncResponse.mk none body pdft) →
        processLiveEntry env u = none) := by
  refine ⟨fun ct => rfl, rfl, rfl, ?_⟩
  intro h
  unfold processLiveEntry
  rw [h]
  dsimp only
  have hu : effectiveContentType (EncResponse.mk none body pdft) = "unknown" := rfl
  rw [hu, if_neg (by decide), if_neg (by decide), if_neg (by decide)]

/-- Environment whose responses carry no Content-Type header. -/
def noHeaderEnv : String → EncResult :=
  fun _ => EncResult.ok (EncResponse.mk none "b" "p")

/-- C9 witness: a concrete headerless response yields no Document. -/
theorem C9_witness : processLiveEntry noHeaderEnv "e" = none :=
  (C9_header_dispatch noHeaderEnv "e" "b" "p").2.2.2 rfl

/-- Predicate on a link list: every rel="next" link has an href (so no
TypeError) whose skiptoken either is absent or fails to parse as an integer. -/
def nextLinksMalformed (links : List Link) : Prop :=
  ∀ l ∈ links, l.rel = some "next" →
    l.href.isSome = true ∧ l.href.bind extractToken = none

theorem scanNextLinks_malformed (links : List Link) (st : Int × Bool)
    (hm : nextLinksMalformed links) :
    scanNextLinks links st = some st := by
  induction links with
  | nil => rfl
  | cons l rest ih =>
    have hrest : nextLinksMalformed rest :=
      fun x hx => hm x (List.mem_cons_of_mem l hx)
    by_cases hrel : l.rel = some "next"
    · obtain ⟨hsome, hnone⟩ := hm l (List.mem_cons_self l rest) hrel
      rcases hl : l.href with _ | h
      · rw [hl] at hsome; cases hsome
      · rw [hl] at hnone
        simp only [Option.some_bind] at hnone
        rw [scan_cons_notok l rest st h hrel hl hnone]
        exact ih hrest
    · rw [scan_cons_other l rest st hrel]
      exact ih hrest

theorem processEntries_malformed (env : String → EncResult) (entries : List Entry)
    (st : Int × Bool) (docs : List Document)
    (hm : ∀ e ∈ entries, nextLinksMalformed e.links) :
    ∃ docs', processEntries env entries st docs = some (st, docs') := by
  induction entries generalizing docs with
  | nil => exact ⟨docs, rfl⟩
  | cons e rest ih =>
    have hscan := scanNextLinks_malformed e.links st (hm e (List.mem_cons_self e rest))
    have hrest : ∀ x ∈ rest, nextLinksMalformed x.links :=
      fun x hx => hm x (List.mem_cons_of_mem e hx)
    have hpe : ∃ d, processEntry env e st = some (st, d) := by
      unfold processEntry
      rw [hscan]
      dsimp only
      cases hc : e.content with
      | malformed => exact ⟨none, rfl⟩
      | ok root =>
        dsimp only
        by_cases hd : isDeletedCheck root
        · rw [if_pos hd]; exact ⟨none, rfl⟩
        · rw [if_neg hd]; exact ⟨liveFetch env e, rfl⟩
      | absent => exact ⟨liveFetch env e, rfl⟩
      | noText => exact ⟨liveFetch env e, rfl⟩
    obtain ⟨d, hpe⟩ := hpe
    simp only [processEntries]
    rw [hpe]
    dsimp only
    cases d with
    | some doc => exact ih (docs ++ [doc]) hrest
    | none => exact ih docs hrest

theorem feedLevelToken_malformed (p : FeedPage) (c : Int)
    (hm : nextLinksMalformed p.feedLinks) :
    feedLevelToken p c = some (c, false) := by
  unfold feedLevelToken
  rcases hfind : p.feedLinks.find? (fun l => l.rel == some "next") with _ | l
  · rw [hfind]
  · have hmem := List.mem_of_find?_eq_some hfind
    have hrel : l.rel = some "next" := by simpa using List.find?_some hfind
    obtain ⟨hsome, hnone⟩ := hm l hmem hrel
    rw [hfind]
    dsimp only
    rcases hl : l.href with _ | h
    · rw [hl] at hsome; cases hsome
    · rw [hl] at hnone
      simp only [Option.some_bind] at hnone
      dsimp only
      rw [hnone]

/-- C10: a rel="next" link whose href contains no "skiptoken=" substring, or
whose skiptoken value does not parse as an integer, is ignored — the entry scan
passes its state through unchanged — and a page all of whose next links are
malformed in this way ends the paging loop with the cursor unchanged from the
previous page (only the batch may have grown). -/
theorem C10_malformed_next_links (env : String → EncResult) (p : FeedPage)
    (c : Int) (docs : List Document) (rest : List PageResult)
    (hfeed : nextLinksMalformed p.feedLinks)
    (hentries : ∀ e ∈ p.entries, nextLinksMalformed e.links) :
    (∀ links st, nextLinksMalformed links → scanNextLinks links st = some st) ∧
    ∃ docs', runLoop env (PageResult.page p :: rest) c docs =
      RunOutcome.finished c docs' := by
  refine ⟨scanNextLinks_malformed, ?_⟩
  obtain ⟨docs', hpe⟩ := processEntries_malformed env p.entries (c, false) docs hentries
  refine ⟨docs', ?_⟩
  simp only [runLoop]
  unfold pageStep
  rw [hpe]
  dsimp only
  rw [if_neg Bool.false_ne_true, feedLevelToken_malformed p c hfeed]
  dsimp only
  rw [if_neg Bool.false_ne_true]

/-- Page whose only next links carry no parseable skiptoken anywhere. -/
def malPage : FeedPage :=
  FeedPage.mk
    [Entry.mk [Link.mk (some "next") (some "x?skiptoken=abc")] NestedContent.absent]
    [Link.mk (some "next") (some "no-token-here")]

/-- C10 witness: the concrete malformed-links page ends the loop with the
cursor still 7. -/
theorem C10_witness :
    (∀ links st, nextLinksMalformed links → scanNextLinks links st = some st) ∧
    ∃ docs', runLoop failEnv (PageResult.page malPage :: []) 7 [] =
      RunOutcome.finished 7 docs' :=
  C10_malformed_next_links failEnv malPage 7 [] []
    (by unfold nextLinksMalformed; decide) (by unfold nextLinksMalformed; decide)
